import Mathlib

/-!
Verification of the migration dependency engine of this repository
(`django/db/migrations/loader.py`, `django/db/migrations/recorder.py`,
`django/core/management/commands/migrate.py`).

Pure shallow embedding: dictionaries become insertion-ordered association
lists, sets become lists with membership tests, exceptions become `Except`.
The graph structure `MigrationGraph` (imported by the loader from
`django.db.migrations.graph`, a module not part of this repository's
sources) is modelled from the spec, as is the text-truncation helper; every
other definition is translated directly from the repository's source files.
-/

namespace Dj

/-- View of an `Except` value as a sum, for deciding equality. -/
def exceptToSum {ε α : Type _} : Except ε α → ε ⊕ α
  | .error e => .inl e
  | .ok a => .inr a

instance {ε α : Type _} [DecidableEq ε] [DecidableEq α] : DecidableEq (Except ε α) :=
  fun a b =>
    decidable_of_iff (exceptToSum a = exceptToSum b)
      (by cases a <;> cases b <;> simp [exceptToSum])

/-- Identifier of one migration: `(app_label, name)`. -/
structure MigrationKey where
  app : String
  name : String
deriving DecidableEq, Repr

/-- A Python callable as seen by `describe_operation`: only its `__doc__`
    matters there (`none` = no docstring). -/
structure PyCode where
  doc : Option String
deriving DecidableEq, Repr

/-- An operation descriptor as consumed by `Command.describe_operation`
    (`migrate.py`): either it has a `code` attribute (RunPython-like, with a
    forward callable and an optional reverse callable), or a `sql` attribute
    (RunSQL-like, with forward SQL and optional reverse SQL), or neither.
    The forward effect is always present ("forward-capable,
    optionally-reversible operation descriptors"). `describeText` is the
    result of `operation.describe()`. -/
inductive Operation where
  | codeOp (describeText : String) (code : PyCode) (reverseCode : Option PyCode)
  | sqlOp (describeText : String) (sql : String) (reverseSql : Option String)
  | plainOp (describeText : String)
deriving DecidableEq, Repr

/-- The `operation.describe()` text of an operation. -/
def Operation.describeText : Operation → String
  | .codeOp d _ _ => d
  | .sqlOp d _ _ => d
  | .plainOp d => d

/-- One migration unit (`django.db.migrations.Migration` instance): its
    declared dependencies, `run_before` inverse dependencies, `replaces`
    list for squash units, and operation list. -/
structure Migration where
  appLabel : String
  name : String
  dependencies : List MigrationKey := []
  runBefore : List MigrationKey := []
  replaces : List MigrationKey := []
  operations : List Operation := []
  atomic : Bool := true
deriving DecidableEq, Repr

/-- Modelled from the spec: a graph node is either resolved (holds a real
    migration payload) or a placeholder ("dummy") created eagerly on
    edge-insertion, remembering the migration that referenced it. -/
inductive GNode where
  | real (m : Migration)
  | dummy (origin : MigrationKey)
deriving DecidableEq, Repr

/-- Modelled from the spec: the dependency graph is a mapping from
    `MigrationKey` to a node plus parent/child edges; represented by an
    insertion-ordered association list of nodes and a list of
    `(child, parent)` edge pairs. -/
structure MigrationGraph where
  nodes : List (MigrationKey × GNode)
  edges : List (MigrationKey × MigrationKey)
deriving DecidableEq, Repr

/-- The empty graph. -/
def MigrationGraph.empty : MigrationGraph := ⟨[], []⟩

/-- Key membership in the graph's node mapping (`key in graph.nodes`). -/
def hasKey (g : MigrationGraph) (k : MigrationKey) : Prop :=
  k ∈ g.nodes.map (·.1)

instance (g : MigrationGraph) (k : MigrationKey) : Decidable (hasKey g k) := by
  unfold hasKey
  infer_instance

/-- Modelled from the spec: bind `key` to a real node. -/
def addNode (g : MigrationGraph) (k : MigrationKey) (m : Migration) : MigrationGraph :=
  { g with nodes := g.nodes ++ [(k, .real m)] }

/-- Modelled from the spec: create a placeholder node for a referenced but
    not-yet-materialised key, remembering the referencing migration. -/
def addDummy (g : MigrationGraph) (k : MigrationKey) (origin : MigrationKey) : MigrationGraph :=
  { g with nodes := g.nodes ++ [(k, .dummy origin)] }

/-- Modelled from the spec: insert a parent→child dependency edge,
    auto-creating a placeholder node for either endpoint if not yet
    present, to be resolved or reported missing during validation. -/
def addDependency (g : MigrationGraph) (origin child parent : MigrationKey) : MigrationGraph :=
  let g := if hasKey g child then g else addDummy g child origin
  let g := if hasKey g parent then g else addDummy g parent origin
  { g with edges := g.edges ++ [(child, parent)] }

/-- Parent keys of `k` (the keys `k`'s node depends on). -/
def parentsOf (g : MigrationGraph) (k : MigrationKey) : List MigrationKey :=
  ((g.edges.filter (fun e => e.1 = k)).map (·.2)).dedup

/-- Child keys of `k` (the keys that depend on `k`). -/
def childrenOf (g : MigrationGraph) (k : MigrationKey) : List MigrationKey :=
  ((g.edges.filter (fun e => e.2 = k)).map (·.1)).dedup

/-- Modelled from the spec: delete the replaced nodes and rewire every edge
    that touched them to instead touch `replacement`, preserving original
    edge direction (edges that would degenerate into self-loops between
    replaced keys are dropped, keeping the no-self-loop invariant). -/
def removeReplacedNodes (g : MigrationGraph) (replacement : MigrationKey)
    (replaced : List MigrationKey) : MigrationGraph :=
  let remap := fun k => if k ∈ replaced then replacement else k
  { nodes := g.nodes.filter (fun p => p.1 ∉ replaced),
    edges := (g.edges.map (fun e => (remap e.1, remap e.2))).filter (fun e => e.1 ≠ e.2) }

/-- Modelled from the spec: delete the replacement (squash) node itself and
    remap any inbound edge on it (a dependent pointing at the squash) onto
    the last element of `replaced`; its own outbound dependency edges are
    dropped with it. Used when a squash cannot be substituted because it is
    partially applied. -/
def removeReplacementNode (g : MigrationGraph) (replacement : MigrationKey)
    (replaced : List MigrationKey) : MigrationGraph :=
  { nodes := g.nodes.filter (fun p => p.1 ≠ replacement),
    edges := g.edges.filterMap (fun e =>
      if e.1 = replacement then none
      else if e.2 = replacement then (replaced.getLast?).map (fun l => (e.1, l))
      else some e) }

/-- Strict lexicographic comparison of character lists (Python string
    comparison by code point). -/
def charListLT : List Char → List Char → Bool
  | [], [] => false
  | [], _ :: _ => true
  | _ :: _, [] => false
  | a :: as, b :: bs => if a < b then true else if b < a then false else charListLT as bs

/-- Strict Python string comparison. -/
def strLT (a b : String) : Bool := charListLT a.data b.data

/-- Non-strict Python string comparison. -/
def strLE (a b : String) : Bool := strLT a b || a = b

/-- Ordering of migration keys (Python tuple comparison, used by `sorted`). -/
def keyLE (a b : MigrationKey) : Prop :=
  strLT a.app b.app = true ∨ (a.app = b.app ∧ strLE a.name b.name = true)

instance : DecidableRel keyLE := by
  unfold keyLE
  infer_instance

/-- Deterministic sort of a key list (the source's `sorted(...)`). -/
def sortKeys (l : List MigrationKey) : List MigrationKey :=
  l.insertionSort keyLE

/-- Deterministic sort of a string list (the source's `sorted(...)`). -/
def sortStrings (l : List String) : List String :=
  l.insertionSort (fun a b => strLE a b = true)

/-- `name.startswith(pre)`, structurally on the character data. -/
def charStartsWith (s pre : List Char) : Bool :=
  match s, pre with
  | _, [] => true
  | [], _ :: _ => false
  | a :: as, b :: bs => a = b && charStartsWith as bs

/-- Python `str.startswith`. -/
def strStartsWith (s pre : String) : Bool := charStartsWith s.data pre.data

/-- Modelled from the spec: the roots of one app's subgraph — its node keys
    with no parent inside the same app — in deterministic sorted order. -/
def rootNodesApp (g : MigrationGraph) (app : String) : List MigrationKey :=
  sortKeys ((g.nodes.map (·.1)).filter
    (fun k => k.app = app ∧ ∀ p ∈ parentsOf g k, p.app ≠ app))

/-- Modelled from the spec: the leaves of one app's subgraph — its node keys
    with no child inside the same app — in deterministic sorted order. -/
def leafNodesApp (g : MigrationGraph) (app : String) : List MigrationKey :=
  sortKeys ((g.nodes.map (·.1)).filter
    (fun k => k.app = app ∧ ∀ c ∈ childrenOf g k, c.app ≠ app))

/-- Modelled from the spec: all leaf nodes — keys that are the tip of their
    app's migration chain (no child within the same app) — sorted. -/
def leafNodes (g : MigrationGraph) : List MigrationKey :=
  sortKeys ((g.nodes.map (·.1)).filter
    (fun k => ∀ c ∈ childrenOf g k, c.app ≠ k.app))

/-- Modelled from the spec: validation walks all nodes and reports the first
    still-unresolved placeholder as `(origin, missing-key)`. -/
def firstDummy : List (MigrationKey × GNode) → Option (MigrationKey × MigrationKey)
  | [] => none
  | (k, .dummy o) :: _ => some (o, k)
  | (_, .real _) :: rest => firstDummy rest

/-- One saturation step of reachability along parent edges. -/
def reachStep (g : MigrationGraph) (s : List MigrationKey) : List MigrationKey :=
  (s ++ s.flatMap (parentsOf g)).dedup

/-- Modelled from the spec: cycle detection — some node reaches itself by a
    nonempty chain of dependency edges. -/
def hasCycle (g : MigrationGraph) : Bool :=
  g.nodes.any (fun p =>
    decide (p.1 ∈ (reachStep g)^[g.nodes.length] (parentsOf g p.1)))

/-! ## Loader (`django/db/migrations/loader.py`) -/

/-- Errors that `MigrationLoader.build_graph` and its helpers can raise. -/
inductive BuildError where
  /-- `ValueError("Dependency on app with no migrations: …")` -/
  | noMigrations (app : String)
  /-- `ValueError("Dependency on unknown app: …")` -/
  | unknownApp (app : String)
  /-- `NodeNotFoundError` from `validate_consistency`, carrying the origin
      migration and the missing node key. -/
  | nodeNotFound (origin node : MigrationKey)
  /-- The re-raised, richer `NodeNotFoundError` naming the blocking squash
      candidates for the missing node. -/
  | nodeNotFoundReplaced (origin node : MigrationKey) (candidates : List MigrationKey)
  /-- `CircularDependencyError` from `ensure_not_cyclic`. -/
  | circular
deriving DecidableEq, Repr

/-- The loader's per-invocation inputs: the on-disk migrations (an
    insertion-ordered dict), the app classification produced by
    `load_disk`, the constructor flags, and the applied-migration keys read
    from the recorder. -/
structure LoaderCtx where
  diskMigrations : List (MigrationKey × Migration)
  unmigratedApps : List String
  migratedApps : List String
  ignoreNoMigrations : Bool
  replaceMigrations : Bool
  applied : List MigrationKey
deriving Repr

/-- `MigrationLoader.check_key`: resolve the `__first__` / `__latest__`
    sentinels against the target app's current roots/leaves, drop sentinel
    references to the unit's own app or to unmigrated apps, and error on a
    migrated app without migrations (unless `ignore_no_migrations`) or on an
    unknown app. -/
def checkKey (ctx : LoaderCtx) (g : MigrationGraph) (key : MigrationKey)
    (currentApp : String) : Except BuildError (Option MigrationKey) :=
  if (key.name ≠ "__first__" ∧ key.name ≠ "__latest__") ∨ hasKey g key then
    .ok (some key)
  else if key.app = currentApp then
    .ok none
  else if key.app ∈ ctx.unmigratedApps then
    .ok none
  else if key.app ∈ ctx.migratedApps then
    match (if key.name = "__first__" then rootNodesApp g key.app
           else leafNodesApp g key.app).head? with
    | some k => .ok (some k)
    | none =>
        if ctx.ignoreNoMigrations then .ok none
        else .error (.noMigrations key.app)
  else
    .error (.unknownApp key.app)

/-- `MigrationLoader.add_internal_dependencies`: add the same-app
    dependency edges of one migration (skipping same-app `__first__`). -/
def addInternalDependencies (g : MigrationGraph) (key : MigrationKey)
    (m : Migration) : MigrationGraph :=
  m.dependencies.foldl (fun g parent =>
    if parent.app = key.app ∧ parent.name ≠ "__first__" then
      addDependency g key key parent
    else g) g

/-- `MigrationLoader.add_external_dependencies`: add the cross-app
    dependency edges (resolving sentinels via `check_key`) and the
    `run_before` inverse edges of one migration. -/
def addExternalDependencies (ctx : LoaderCtx) (g : MigrationGraph)
    (key : MigrationKey) (m : Migration) : Except BuildError MigrationGraph := do
  let g ← m.dependencies.foldlM (fun g parent => do
    if key.app = parent.app then
      pure g
    else
      match ← checkKey ctx g parent key.app with
      | some p => pure (addDependency g key key p)
      | none => pure g) g
  m.runBefore.foldlM (fun g child => do
    match ← checkKey ctx g child key.app with
    | some c => pure (addDependency g key c key)
    | none => pure g) g

/-- Graph plus applied-set state threaded through the replacement phase. -/
structure ReplState where
  graph : MigrationGraph
  applied : List MigrationKey
deriving Repr

/-- Dict-assignment membership semantics: add a key if absent. -/
def insertKey (l : List MigrationKey) (k : MigrationKey) : List MigrationKey :=
  if k ∈ l then l else l ++ [k]

/-- The body of the replacement loop of `MigrationLoader.build_graph`
    (lines 275–294): for one squash migration, compute the applied statuses
    of its replacement targets; mark the squash applied iff all targets are
    applied; substitute it for its targets when all or none are applied, and
    otherwise drop the squash node itself from the graph. -/
def applyReplacement (st : ReplState) (kv : MigrationKey × Migration) : ReplState :=
  let appliedStatuses := kv.2.replaces.map (fun target => decide (target ∈ st.applied))
  let applied :=
    if appliedStatuses.all id then insertKey st.applied kv.1
    else st.applied.filter (fun k => k ≠ kv.1)
  let graph :=
    if appliedStatuses.all id || !(appliedStatuses.any id) then
      removeReplacedNodes st.graph kv.1 kv.2.replaces
    else
      removeReplacementNode st.graph kv.1 kv.2.replaces
  { graph := graph, applied := applied }

/-- The `validate_consistency` call of `build_graph` together with its
    `except NodeNotFoundError` enrichment: when the missing node is a
    replacement target of some squash and no candidate squash survives in
    the graph, re-raise naming the candidates; otherwise let the original
    error propagate. -/
def validatePhase (replacements : List (MigrationKey × Migration))
    (g : MigrationGraph) : Except BuildError Unit :=
  match firstDummy g.nodes with
  | none => .ok ()
  | some (origin, node) =>
      let candidates := (replacements.filter (fun kv => node ∈ kv.2.replaces)).map (·.1)
      if candidates ≠ [] then
        if candidates.any (fun c => decide (hasKey g c)) then
          .error (.nodeNotFound origin node)
        else
          .error (.nodeNotFoundReplaced origin node candidates)
      else
        .error (.nodeNotFound origin node)

/-- The result of a successful `build_graph`. -/
structure BuiltLoader where
  graph : MigrationGraph
  applied : List MigrationKey
  replacements : List (MigrationKey × Migration)
deriving Repr

/-- `MigrationLoader.build_graph` up to (and including) consistency
    validation: add all disk migrations as nodes, record the squash units,
    add internal then external dependency edges, carry out replacements
    when enabled, and validate that no placeholder survives. -/
def buildGraphPre (ctx : LoaderCtx) : Except BuildError BuiltLoader := do
  let g := ctx.diskMigrations.foldl (fun g kv => addNode g kv.1 kv.2) .empty
  let replacements := ctx.diskMigrations.filter (fun kv => kv.2.replaces ≠ [])
  let g := ctx.diskMigrations.foldl (fun g kv => addInternalDependencies g kv.1 kv.2) g
  let g ← ctx.diskMigrations.foldlM (fun g kv => addExternalDependencies ctx g kv.1 kv.2) g
  let st :=
    if ctx.replaceMigrations then
      replacements.foldl applyReplacement ⟨g, ctx.applied⟩
    else
      ⟨g, ctx.applied⟩
  let _ ← validatePhase replacements st.graph
  pure ⟨st.graph, st.applied, replacements⟩

/-- `MigrationLoader.build_graph`: the validated build followed by the
    final `ensure_not_cyclic` check. -/
def buildGraph (ctx : LoaderCtx) : Except BuildError BuiltLoader :=
  (buildGraphPre ctx).bind (fun bl =>
    if hasCycle bl.graph then .error .circular else .ok bl)

/-- The inner test of `check_consistent_history` for one graph parent of an
    applied migration: the parent is a violation when it is not applied and
    is not an unapplied squash migration whose whole `replaces` list is
    already applied. -/
def violatingParent (replacements : List (MigrationKey × Migration))
    (applied : List MigrationKey) (parent : MigrationKey) : Prop :=
  parent ∉ applied ∧
    ¬ (∃ kv ∈ replacements, kv.1 = parent ∧ ∀ r ∈ kv.2.replaces, r ∈ applied)

instance (replacements : List (MigrationKey × Migration))
    (applied : List MigrationKey) (parent : MigrationKey) :
    Decidable (violatingParent replacements applied parent) := by
  unfold violatingParent
  infer_instance

/-- The loop of `MigrationLoader.check_consistent_history` over the
    applied keys still to visit (`applied` is the full applied snapshot,
    `todo` the remaining iteration suffix). -/
def checkConsistentHistoryAux (g : MigrationGraph)
    (replacements : List (MigrationKey × Migration))
    (applied : List MigrationKey) :
    List MigrationKey → Except (MigrationKey × MigrationKey) Unit
  | [] => .ok ()
  | migration :: rest =>
      if hasKey g migration then
        match (parentsOf g migration).find?
            (fun p => decide (violatingParent replacements applied p)) with
        | some parent => .error (migration, parent)
        | none => checkConsistentHistoryAux g replacements applied rest
      else
        checkConsistentHistoryAux g replacements applied rest

/-- `MigrationLoader.check_consistent_history`: for every applied key known
    to the graph, every graph parent must be applied, unless the parent is a
    squash whose whole replacement set is applied; the first violation is
    reported as `(migration, parent)` (the two keys named by
    `InconsistentMigrationHistory`). -/
def checkConsistentHistory (g : MigrationGraph)
    (replacements : List (MigrationKey × Migration))
    (applied : List MigrationKey) : Except (MigrationKey × MigrationKey) Unit :=
  checkConsistentHistoryAux g replacements applied applied

/-- `seen_apps.setdefault(app_label, set()).add(migration_name)`. -/
def seenAdd (seen : List (String × List String)) (app name : String) :
    List (String × List String) :=
  if seen.any (fun p => p.1 = app) then
    seen.map (fun p =>
      if p.1 = app then (p.1, if name ∈ p.2 then p.2 else p.2 ++ [name]) else p)
  else
    seen ++ [(app, [name])]

/-- The loop of `MigrationLoader.detect_conflicts`, threading the
    `seen_apps` dict and the `conflicting_apps` set. -/
def detectConflictsAux : List MigrationKey → List (String × List String) →
    List String → List (String × List String) × List String
  | [], seen, conflicting => (seen, conflicting)
  | k :: rest, seen, conflicting =>
      let conflicting :=
        if seen.any (fun p => p.1 = k.app) then
          if k.app ∈ conflicting then conflicting else conflicting ++ [k.app]
        else conflicting
      detectConflictsAux rest (seenAdd seen k.app k.name) conflicting

/-- `MigrationLoader.detect_conflicts`: walk the graph's leaf nodes and
    report every app label seen more than once, mapped to the sorted leaf
    names of that app. -/
def detectConflicts (g : MigrationGraph) : List (String × List String) :=
  let r := detectConflictsAux (leafNodes g) [] []
  r.2.map (fun a =>
    (a, sortStrings (((r.1.find? (fun p => p.1 = a)).map (·.2)).getD [])))

/-- Errors of `MigrationLoader.get_migration_by_prefix`. -/
inductive LookupError where
  /-- `AmbiguityError`: more than one migration matches the prefix. -/
  | ambiguity (app pref : String)
  /-- `KeyError`: no migration matches the prefix. -/
  | keyError (app pref : String)
deriving DecidableEq, Repr

/-- The per-entry match test of the source's search loop in
    `get_migration_by_prefix`: same app label and the name starts with the
    given prefix string. -/
def prefMatches (appLabel pref : String) (kv : MigrationKey × Migration) : Bool :=
  kv.1.app = appLabel && strStartsWith kv.1.name pref

/-- `MigrationLoader.get_migration_by_prefix`: collect the disk migrations
    of `appLabel` whose name starts with `pref`; more than one match is an
    `AmbiguityError`, no match a `KeyError`, and exactly one match returns
    that migration.  The function only reads `disk_migrations`; neither the
    graph nor the disk-migration mapping is modified on any path. -/
def getMigrationByPrefix (disk : List (MigrationKey × Migration))
    (appLabel pref : String) : Except LookupError Migration :=
  let results := disk.filter (prefMatches appLabel pref)
  if results.length > 1 then
    .error (.ambiguity appLabel pref)
  else
    match results with
    | [] => .error (.keyError appLabel pref)
    | r :: _ => .ok r.2

/-! ## `load_disk` (`django/db/migrations/loader.py`)

The import machinery (module discovery, `pkgutil.iter_modules`, reloads) is
the I/O boundary; it is abstracted as a pre-enumerated input: each app
config either has no migrations module (`sources = none`, the app becomes
unmigrated) or yields a list of discovered migration modules, each knowing
whether it defines a `Migration` class and, if so, the class's declared
attributes (the constructor then stamps the key's app label and name on the
instance). -/

/-- One discovered migration module of an app. -/
structure MigrationSource where
  name : String
  hasMigrationClass : Bool
  payload : Migration
deriving Repr

/-- One installed app as seen by `load_disk`. -/
structure AppConfigSrc where
  label : String
  sources : Option (List MigrationSource)
deriving Repr

/-- Python dict assignment `d[k] = v`: overwrite in place if the key is
    present, append otherwise. -/
def dictInsert (d : List (MigrationKey × Migration)) (k : MigrationKey)
    (v : Migration) : List (MigrationKey × Migration) :=
  if d.any (fun p => p.1 = k) then
    d.map (fun p => if p.1 = k then (k, v) else p)
  else
    d ++ [(k, v)]

/-- The result of `load_disk`: the app classification and the
    `disk_migrations` dict. -/
structure LoadResult where
  unmigratedApps : List String
  migratedApps : List String
  diskMigrations : List (MigrationKey × Migration)
deriving DecidableEq, Repr

/-- The inner loop of `load_disk` over one app's discovered migration
    modules: a module without a `Migration` class raises
    `BadMigrationError`; otherwise the constructed instance is assigned
    into the `disk_migrations` dict under `(label, name)`. -/
def loadDiskApp (label : String) (d : List (MigrationKey × Migration)) :
    List MigrationSource → Except String (List (MigrationKey × Migration))
  | [] => .ok d
  | s :: rest =>
      if s.hasMigrationClass then
        loadDiskApp label
          (dictInsert d ⟨label, s.name⟩
            { s.payload with appLabel := label, name := s.name }) rest
      else
        .error ("Migration " ++ s.name ++ " in app " ++ label ++
          " has no Migration class")

/-- The outer loop of `load_disk` over the installed app configs. -/
def loadDiskGo (r : LoadResult) : List AppConfigSrc → Except String LoadResult
  | [] => .ok r
  | app :: rest =>
      match app.sources with
      | none =>
          loadDiskGo { r with unmigratedApps := r.unmigratedApps ++ [app.label] } rest
      | some srcs =>
          match loadDiskApp app.label r.diskMigrations srcs with
          | .error e => .error e
          | .ok d =>
              loadDiskGo { r with migratedApps := r.migratedApps ++ [app.label],
                                  diskMigrations := d } rest

/-- `MigrationLoader.load_disk`: classify each app as migrated or
    unmigrated and fill `disk_migrations` from every discovered module. -/
def loadDisk (apps : List AppConfigSrc) : Except String LoadResult :=
  loadDiskGo ⟨[], [], []⟩ apps

/-! ## Recorder (`django/db/migrations/recorder.py`)

The database is abstracted as the state visible to the recorder: whether
the `django_migrations` table exists, its rows, and whether the schema
editor is able to create the table. -/

/-- The recorder-visible database state. -/
structure DbState where
  hasTable : Bool
  rows : List (String × String)
  canCreateTable : Bool
deriving DecidableEq, Repr

/-- `MigrationRecorder.applied_migrations`: all `(app, name)` rows when the
    table exists, and the empty mapping when it does not. -/
def appliedMigrations (s : DbState) : List (String × String) :=
  if s.hasTable then s.rows else []

/-- `MigrationRecorder.ensure_schema`: no-op when the table exists;
    otherwise create it, turning a schema-editor failure into
    `MigrationSchemaMissing`. -/
def ensureSchema (s : DbState) : Except String DbState :=
  if s.hasTable then
    .ok s
  else if s.canCreateTable then
    .ok { s with hasTable := true }
  else
    .error "Unable to create the django_migrations table"

/-- `MigrationRecorder.record_applied`: ensure the schema, then insert the
    row. -/
def recordApplied (s : DbState) (app name : String) : Except String DbState :=
  (ensureSchema s).map (fun s => { s with rows := s.rows ++ [(app, name)] })

/-- `MigrationRecorder.record_unapplied`: ensure the schema, then delete the
    matching rows. -/
def recordUnapplied (s : DbState) (app name : String) : Except String DbState :=
  (ensureSchema s).map (fun s =>
    { s with rows := s.rows.filter (fun r => r ≠ (app, name)) })

/-! ## Migrate command (`django/core/management/commands/migrate.py`) -/

/-- `CommandError` raised by the migrate command. -/
inductive CmdError where
  | commandError (msg : String)
deriving DecidableEq, Repr

/-- The target computation of `Command.handle` when both an app label and a
    migration name are supplied: name "zero" becomes the
    revert-the-whole-app target `(app_label, none)`; otherwise the name is
    resolved by prefix, and a resolved target absent from the graph's nodes
    but present in `replacements` (a partially-applied squash) is remapped
    onto the last element of that squash's `replaces` list.  (`replaces[-1]`
    presupposes the non-empty `replaces` every recorded squash has.) -/
def computeNamedTargets (bl : BuiltLoader) (disk : List (MigrationKey × Migration))
    (appLabel migName : String) : Except CmdError (List (String × Option String)) :=
  if migName = "zero" then
    .ok [(appLabel, none)]
  else
    match getMigrationByPrefix disk appLabel migName with
    | .error (.ambiguity _ _) =>
        .error (.commandError ("More than one migration matches '" ++ migName ++
          "' in app '" ++ appLabel ++ "'. Please be more specific."))
    | .error (.keyError _ _) =>
        .error (.commandError ("Cannot find a migration matching '" ++ migName ++
          "' from app '" ++ appLabel ++ "'."))
    | .ok migration =>
        let target : MigrationKey := ⟨appLabel, migration.name⟩
        let target :=
          if ¬ hasKey bl.graph target then
            match bl.replacements.find? (fun kv => kv.1 = target) with
            | some incomplete => (incomplete.2.replaces.getLast?).getD target
            | none => target
          else target
        .ok [(target.app, some target.name)]

/-- Modelled from the spec: the operation summaries are human-readable
    one-liners, so the text-shortening helper (`Truncator(...).chars(40)`,
    whose source is not part of this repository) keeps a string unchanged
    when it is within the size budget and otherwise cuts it down, ending it
    with an ellipsis character. -/
def truncChars (n : Nat) (s : String) : String :=
  if s.length ≤ n then s else (s.take (n - 1)).push '…'

/-- `str(action).replace('\n', '')`. -/
def stripNewlines (s : String) : String :=
  String.mk (s.data.filter (fun c => c ≠ '\n'))

/-- `Command.describe_operation`: describe one operation for `--plan`,
    flagging as an error (`is_error`) a backward description of an
    operation whose reverse callable / reverse SQL is `None`, which is
    rendered as `IRREVERSIBLE`. -/
def describeOperation (op : Operation) (backwards : Bool) : String × Bool :=
  let pre : String :=
    match op with
    | .plainOp _ => if backwards then "Undo " else ""
    | _ => ""
  let action : Option String :=
    match op with
    | .codeOp _ code reverseCode =>
        (if backwards then reverseCode else some code).map (fun c => c.doc.getD "")
    | .sqlOp _ sql reverseSql =>
        if backwards then reverseSql else some sql
    | .plainOp _ => some ""
  match action with
  | some a =>
      let a := stripNewlines a
      let a := if a ≠ "" then " -> " ++ a else a
      (pre ++ op.describeText ++ truncChars 40 a, false)
  | none =>
      if backwards then
        (pre ++ op.describeText ++ truncChars 40 " -> IRREVERSIBLE", true)
      else
        (pre ++ op.describeText, false)

/-- The `--plan` output loop of `Command.handle`: one described line (with
    its error flag, used only to pick the warning style) per operation of
    every plan entry; no entry aborts the loop. -/
def planDescription (plan : List (Migration × Bool)) : List (String × Bool) :=
  plan.flatMap (fun mb => mb.1.operations.map (fun op => describeOperation op mb.2))

/-! ## Theorems -/

/-- A successful `ensure_schema` yields a state whose table exists and
whose rows are unchanged. -/
theorem ensureSchema_ok (s u : DbState) (h : ensureSchema s = .ok u) :
    u.hasTable = true ∧ u.rows = s.rows := by
  unfold ensureSchema at h
  by_cases hht : s.hasTable = true
  · rw [if_pos hht] at h
    injection h with h
    subst h
    exact ⟨hht, rfl⟩
  · rw [if_neg hht] at h
    by_cases hcc : s.canCreateTable = true
    · rw [if_pos hcc] at h
      injection h with h
      subst h
      exact ⟨rfl, rfl⟩
    · rw [if_neg hcc] at h
      exact absurd h (by simp)

/-- C10: if the applied-record table does not exist, `applied_migrations`
returns the empty mapping (no migration is considered applied) rather than
raising; `record_applied` and `record_unapplied` are exactly
ensure-the-schema-then-write, so on success the write lands in a state
whose table exists (with the row recorded, resp. removed). -/
theorem recorder_table_handling (s : DbState) (app name : String) :
    (s.hasTable = false → appliedMigrations s = []) ∧
    recordApplied s app name =
      (ensureSchema s).map (fun t => { t with rows := t.rows ++ [(app, name)] }) ∧
    recordUnapplied s app name =
      (ensureSchema s).map (fun t =>
        { t with rows := t.rows.filter (fun r => r ≠ (app, name)) }) ∧
    (∀ t, recordApplied s app name = .ok t →
      t.hasTable = true ∧ (app, name) ∈ t.rows) ∧
    (∀ t, recordUnapplied s app name = .ok t →
      t.hasTable = true ∧ (app, name) ∉ t.rows) := by
  refine ⟨?_, rfl, rfl, ?_, ?_⟩
  · intro h
    simp [appliedMigrations, h]
  · intro t h
    rw [recordApplied] at h
    rcases hs : ensureSchema s with e | u <;> rw [hs] at h <;>
      simp only [Except.map] at h
    · exact absurd h (by simp)
    · injection h with h
      subst h
      exact ⟨(ensureSchema_ok s u hs).1, by simp⟩
  · intro t h
    rw [recordUnapplied] at h
    rcases hs : ensureSchema s with e | u <;> rw [hs] at h <;>
      simp only [Except.map] at h
    · exact absurd h (by simp)
    · injection h with h
      subst h
      refine ⟨(ensureSchema_ok s u hs).1, ?_⟩
      simp only [List.mem_filter]
      rintro ⟨-, hne⟩
      simp at hne

/-- Witness for C10 at a concrete state: with no table the applied mapping
is empty, and a successful `record_applied` lands in a state with the
table created and the row present. -/
theorem recorder_table_handling_witness :
    appliedMigrations ⟨false, [("x", "1")], true⟩ = [] ∧
    ((true : Bool) = true ∧ ("a", "0001") ∈ [("a", "0001")]) :=
  ⟨(recorder_table_handling ⟨false, [("x", "1")], true⟩ "a" "0001").1 rfl,
   (recorder_table_handling ⟨false, [], true⟩ "a" "0001").2.2.2.1
     ⟨true, [("a", "0001")], true⟩ (by decide)⟩

/-- An operation has no reverse effect: its reverse callable, respectively
its reverse SQL, is `None`. -/
def noReverseEffect : Operation → Prop
  | .codeOp _ _ rc => rc = none
  | .sqlOp _ _ rs => rs = none
  | .plainOp _ => False

instance : DecidablePred noReverseEffect := fun op => by
  cases op <;> simp only [noReverseEffect] <;> infer_instance

/-- C9: `describe_operation` flags an operation as an error exactly when it
is described backwards and has no reverse effect, in which case the
description text is the operation description followed by
` -> IRREVERSIBLE`; and the `--plan` dry-run loop produces a described line
for every operation of every plan entry (it never aborts early). -/
theorem describe_operation_irreversible (op : Operation) (b : Bool)
    (plan : List (Migration × Bool)) :
    ((describeOperation op b).2 = true ↔ (b = true ∧ noReverseEffect op)) ∧
    ((describeOperation op b).2 = true →
      (describeOperation op b).1 = op.describeText ++ " -> IRREVERSIBLE") ∧
    (planDescription plan).length =
      (plan.map (fun mb => mb.1.operations.length)).sum := by
  have ht : truncChars 40 " -> IRREVERSIBLE" = " -> IRREVERSIBLE" := by decide
  refine ⟨?_, ?_, ?_⟩
  · rcases op with ⟨d, c, rc⟩ | ⟨d, sq, rs⟩ | d <;> cases b <;>
      first
        | (cases rc <;> simp [describeOperation, noReverseEffect])
        | (cases rs <;> simp [describeOperation, noReverseEffect])
        | simp [describeOperation, noReverseEffect]
  · intro h
    rcases op with ⟨d, c, rc⟩ | ⟨d, sq, rs⟩ | d <;> cases b <;>
      first
        | (cases rc <;>
            simp_all [describeOperation, Operation.describeText, ht])
        | (cases rs <;>
            simp_all [describeOperation, Operation.describeText, ht])
        | simp_all [describeOperation, Operation.describeText, ht]
  · simp [planDescription, List.length_flatMap, Function.comp_def]

/-- Witness for C9: a backward `RunPython`-style operation with
`reverse_code = None` is flagged and rendered `IRREVERSIBLE`. -/
theorem describe_operation_irreversible_witness :
    (describeOperation (.codeOp "Raw Python operation" ⟨none⟩ none) true).1 =
      "Raw Python operation" ++ " -> IRREVERSIBLE" :=
  (describe_operation_irreversible (.codeOp "Raw Python operation" ⟨none⟩ none)
    true []).2.1 (by decide)

/-- C7: the prefix lookup returns the unique matching migration when
exactly one disk migration of the app matches the prefix, raises
`AmbiguityError` when more than one matches, and raises `KeyError` when
none matches.  The embedded function (like the source, which only reads
`self.disk_migrations`) takes the loader state purely and returns only the
lookup outcome: no graph or disk state is modified on any path. -/
theorem get_migration_by_prefix_cases (disk : List (MigrationKey × Migration))
    (appLabel pref : String) :
    (∀ kv, disk.filter (prefMatches appLabel pref) = [kv] →
      getMigrationByPrefix disk appLabel pref = .ok kv.2) ∧
    (1 < (disk.filter (prefMatches appLabel pref)).length →
      getMigrationByPrefix disk appLabel pref = .error (.ambiguity appLabel pref)) ∧
    (disk.filter (prefMatches appLabel pref) = [] →
      getMigrationByPrefix disk appLabel pref = .error (.keyError appLabel pref)) := by
  refine ⟨?_, ?_, ?_⟩
  · intro kv h
    simp [getMigrationByPrefix, h]
  · intro h
    simp only [getMigrationByPrefix]
    rw [if_pos h]
  · intro h
    simp [getMigrationByPrefix, h]

/-- Witness for C7 at a concrete disk state: a unique match is returned,
an ambiguous prefix errors, a missing prefix errors. -/
theorem get_migration_by_prefix_cases_witness :
    getMigrationByPrefix
        [(⟨"app", "0001"⟩, { appLabel := "app", name := "0001" }),
         (⟨"app", "0002"⟩, { appLabel := "app", name := "0002" })]
        "app" "0002" = .ok { appLabel := "app", name := "0002" } ∧
    getMigrationByPrefix
        [(⟨"app", "0001"⟩, { appLabel := "app", name := "0001" }),
         (⟨"app", "0002"⟩, { appLabel := "app", name := "0002" })]
        "app" "000" = .error (.ambiguity "app" "000") ∧
    getMigrationByPrefix
        [(⟨"app", "0001"⟩, { appLabel := "app", name := "0001" }),
         (⟨"app", "0002"⟩, { appLabel := "app", name := "0002" })]
        "app" "9" = .error (.keyError "app" "9") :=
  ⟨(get_migration_by_prefix_cases
      [(⟨"app", "0001"⟩, { appLabel := "app", name := "0001" }),
       (⟨"app", "0002"⟩, { appLabel := "app", name := "0002" })] "app" "0002").1
      (⟨"app", "0002"⟩, { appLabel := "app", name := "0002" }) (by decide),
   (get_migration_by_prefix_cases
      [(⟨"app", "0001"⟩, { appLabel := "app", name := "0001" }),
       (⟨"app", "0002"⟩, { appLabel := "app", name := "0002" })] "app" "000").2.1
      (by decide),
   (get_migration_by_prefix_cases
      [(⟨"app", "0001"⟩, { appLabel := "app", name := "0001" }),
       (⟨"app", "0002"⟩, { appLabel := "app", name := "0002" })] "app" "9").2.2
      (by decide)⟩

/-- C6: name "zero" makes the migrate command pass the revert-entire-app
target `(app_label, none)` to plan computation; and a resolved concrete
target absent from the graph's nodes but recorded as a squash replacement
is remapped onto the last element of that squash's `replaces` list. -/
theorem migrate_command_targets (bl : BuiltLoader)
    (disk : List (MigrationKey × Migration)) (appLabel migName : String)
    (mig : Migration) (p : MigrationKey × Migration) (l : MigrationKey) :
    (computeNamedTargets bl disk appLabel "zero" = .ok [(appLabel, none)]) ∧
    (migName ≠ "zero" →
      getMigrationByPrefix disk appLabel migName = .ok mig →
      ¬ hasKey bl.graph ⟨appLabel, mig.name⟩ →
      bl.replacements.find? (fun kv => kv.1 = ⟨appLabel, mig.name⟩) = some p →
      p.2.replaces.getLast? = some l →
      computeNamedTargets bl disk appLabel migName = .ok [(l.app, some l.name)]) := by
  constructor
  · simp [computeNamedTargets]
  · intro hz hok hnode hrep hlast
    simp [computeNamedTargets, hz, hok, hnode, hrep, hlast]

/-- Witness for C6: "zero" yields the whole-app revert target, and a named
target hitting a recorded squash absent from the graph is remapped to the
last replaced key. -/
theorem migrate_command_targets_witness :
    computeNamedTargets
        ⟨⟨[], []⟩, [],
         [(⟨"app", "0001_squashed_0002"⟩,
           { appLabel := "app", name := "0001_squashed_0002",
             replaces := [⟨"app", "0001"⟩, ⟨"app", "0002"⟩] })]⟩
        [(⟨"app", "0001_squashed_0002"⟩,
          { appLabel := "app", name := "0001_squashed_0002",
            replaces := [⟨"app", "0001"⟩, ⟨"app", "0002"⟩] })]
        "app" "zero" = .ok [("app", none)] ∧
    computeNamedTargets
        ⟨⟨[], []⟩, [],
         [(⟨"app", "0001_squashed_0002"⟩,
           { appLabel := "app", name := "0001_squashed_0002",
             replaces := [⟨"app", "0001"⟩, ⟨"app", "0002"⟩] })]⟩
        [(⟨"app", "0001_squashed_0002"⟩,
          { appLabel := "app", name := "0001_squashed_0002",
            replaces := [⟨"app", "0001"⟩, ⟨"app", "0002"⟩] })]
        "app" "0001_squashed" = .ok [("app", some "0002")] :=
  ⟨(migrate_command_targets
      ⟨⟨[], []⟩, [],
       [(⟨"app", "0001_squashed_0002"⟩,
         { appLabel := "app", name := "0001_squashed_0002",
           replaces := [⟨"app", "0001"⟩, ⟨"app", "0002"⟩] })]⟩
      [(⟨"app", "0001_squashed_0002"⟩,
        { appLabel := "app", name := "0001_squashed_0002",
          replaces := [⟨"app", "0001"⟩, ⟨"app", "0002"⟩] })]
      "app" "zero"
      { appLabel := "app", name := "0001_squashed_0002" }
      (⟨"app", "x"⟩, { appLabel := "app", name := "x" }) ⟨"app", "x"⟩).1,
   (migrate_command_targets
      ⟨⟨[], []⟩, [],
       [(⟨"app", "0001_squashed_0002"⟩,
         { appLabel := "app", name := "0001_squashed_0002",
           replaces := [⟨"app", "0001"⟩, ⟨"app", "0002"⟩] })]⟩
      [(⟨"app", "0001_squashed_0002"⟩,
        { appLabel := "app", name := "0001_squashed_0002",
          replaces := [⟨"app", "0001"⟩, ⟨"app", "0002"⟩] })]
      "app" "0001_squashed"
      { appLabel := "app", name := "0001_squashed_0002",
        replaces := [⟨"app", "0001"⟩, ⟨"app", "0002"⟩] }
      (⟨"app", "0001_squashed_0002"⟩,
       { appLabel := "app", name := "0001_squashed_0002",
         replaces := [⟨"app", "0001"⟩, ⟨"app", "0002"⟩] })
      ⟨"app", "0002"⟩).2
      (by decide) (by decide) (by decide) (by decide) (by decide)⟩

/-- Node-key membership after substituting `rep` for the `repl` nodes:
exactly the old keys outside `repl`. -/
theorem hasKey_removeReplacedNodes (g : MigrationGraph) (rep : MigrationKey)
    (repl : List MigrationKey) (k : MigrationKey) :
    hasKey (removeReplacedNodes g rep repl) k ↔ hasKey g k ∧ k ∉ repl := by
  simp only [hasKey, removeReplacedNodes, List.mem_map, List.mem_filter,
    decide_eq_true_eq]
  constructor
  · rintro ⟨p, ⟨hp, hnot⟩, rfl⟩
    exact ⟨⟨p, hp, rfl⟩, hnot⟩
  · rintro ⟨⟨p, hp, rfl⟩, hnot⟩
    exact ⟨p, ⟨hp, hnot⟩, rfl⟩

/-- Node-key membership after dropping a partially-applied squash node:
exactly the old keys other than the squash key. -/
theorem hasKey_removeReplacementNode (g : MigrationGraph) (rep : MigrationKey)
    (repl : List MigrationKey) (k : MigrationKey) :
    hasKey (removeReplacementNode g rep repl) k ↔ hasKey g k ∧ k ≠ rep := by
  simp only [hasKey, removeReplacementNode, List.mem_map, List.mem_filter,
    decide_eq_true_eq]
  constructor
  · rintro ⟨p, ⟨hp, hnot⟩, rfl⟩
    exact ⟨⟨p, hp, rfl⟩, hnot⟩
  · rintro ⟨⟨p, hp, rfl⟩, hnot⟩
    exact ⟨p, ⟨hp, hnot⟩, rfl⟩

/-- Membership in the dict-style key insertion. -/
theorem mem_insertKey (l : List MigrationKey) (key k : MigrationKey) :
    k ∈ insertKey l key ↔ k ∈ l ∨ k = key := by
  unfold insertKey
  split
  · rename_i hmem
    constructor
    · exact Or.inl
    · rintro (h | rfl)
      · exact h
      · exact hmem
  · simp

/-- C1: the replacement step of `build_graph` (the body of the loop run for
every squash unit with a non-empty `replaces` list, when replacement is
enabled) substitutes the squash for its replaced nodes exactly when all of
its replaced keys are applied or none are: with all applied the squash key
is marked applied, with none applied it is marked unapplied (and in both
cases the replaced nodes leave the graph while the squash node stays);
with mixed statuses the squash node itself is removed from the active
graph and the original replaced nodes remain. -/
theorem build_graph_replacement (st : ReplState) (key : MigrationKey)
    (m : Migration) (hne : m.replaces ≠ []) (hself : key ∉ m.replaces) :
    ((∀ r ∈ m.replaces, r ∈ st.applied) →
      key ∈ (applyReplacement st (key, m)).applied ∧
      (∀ r ∈ m.replaces, ¬ hasKey (applyReplacement st (key, m)).graph r) ∧
      (hasKey st.graph key → hasKey (applyReplacement st (key, m)).graph key)) ∧
    ((∀ r ∈ m.replaces, r ∉ st.applied) →
      key ∉ (applyReplacement st (key, m)).applied ∧
      (∀ r ∈ m.replaces, ¬ hasKey (applyReplacement st (key, m)).graph r) ∧
      (hasKey st.graph key → hasKey (applyReplacement st (key, m)).graph key)) ∧
    ((∃ r ∈ m.replaces, r ∈ st.applied) → (∃ r ∈ m.replaces, r ∉ st.applied) →
      key ∉ (applyReplacement st (key, m)).applied ∧
      ¬ hasKey (applyReplacement st (key, m)).graph key ∧
      (∀ r ∈ m.replaces, hasKey st.graph r →
        hasKey (applyReplacement st (key, m)).graph r)) := by
  refine ⟨?_, ?_, ?_⟩
  · intro h
    have hS : (m.replaces.map (fun target => decide (target ∈ st.applied))).all id
        = true := by
      simp only [List.all_eq_true, List.mem_map, id]
      rintro x ⟨r, hr, rfl⟩
      simpa using h r hr
    refine ⟨?_, ?_, ?_⟩
    · simp only [applyReplacement, hS, if_true, Bool.true_or]
      exact mem_insertKey _ _ _ |>.mpr (Or.inr rfl)
    · intro r hr
      simp only [applyReplacement, hS, if_true, Bool.true_or]
      rw [hasKey_removeReplacedNodes]
      rintro ⟨-, hnot⟩
      exact hnot hr
    · intro hk
      simp only [applyReplacement, hS, if_true, Bool.true_or]
      exact (hasKey_removeReplacedNodes _ _ _ _).mpr ⟨hk, hself⟩
  · intro h
    obtain ⟨r0, hr0⟩ := List.exists_mem_of_ne_nil m.replaces hne
    have hSall : (m.replaces.map (fun target => decide (target ∈ st.applied))).all id
        = false := by
      simp only [List.all_eq_false, List.mem_map]
      exact ⟨decide (r0 ∈ st.applied), ⟨r0, hr0, rfl⟩, by simp [id, h r0 hr0]⟩
    have hSany : (m.replaces.map (fun target => decide (target ∈ st.applied))).any id
        = false := by
      simp only [List.any_eq_false, List.mem_map]
      rintro x ⟨r, hr, rfl⟩
      simp [id, h r hr]
    refine ⟨?_, ?_, ?_⟩
    · simp only [applyReplacement, hSall, hSany, if_false, Bool.false_or,
        Bool.not_false, if_true]
      simp
    · intro r hr
      simp only [applyReplacement, hSall, hSany, if_false, Bool.false_or,
        Bool.not_false, if_true]
      rw [hasKey_removeReplacedNodes]
      rintro ⟨-, hnot⟩
      exact hnot hr
    · intro hk
      simp only [applyReplacement, hSall, hSany, if_false, Bool.false_or,
        Bool.not_false, if_true]
      exact (hasKey_removeReplacedNodes _ _ _ _).mpr ⟨hk, hself⟩
  · rintro ⟨ra, hra, hraApp⟩ ⟨rn, hrn, hrnApp⟩
    have hSall : (m.replaces.map (fun target => decide (target ∈ st.applied))).all id
        = false := by
      simp only [List.all_eq_false, List.mem_map]
      exact ⟨decide (rn ∈ st.applied), ⟨rn, hrn, rfl⟩, by simp [id, hrnApp]⟩
    have hSany : (m.replaces.map (fun target => decide (target ∈ st.applied))).any id
        = true := by
      simp only [List.any_eq_true, List.mem_map]
      exact ⟨decide (ra ∈ st.applied), ⟨ra, hra, rfl⟩, by simp [id, hraApp]⟩
    refine ⟨?_, ?_, ?_⟩
    · simp only [applyReplacement, hSall, hSany, Bool.false_or, Bool.not_true]
      simp
    · simp only [applyReplacement, hSall, hSany, Bool.false_or, Bool.not_true]
      rw [if_neg (show ¬(false = true) by simp)]
      rw [hasKey_removeReplacementNode]
      rintro ⟨-, hnot⟩
      exact hnot rfl
    · intro r hr hk
      simp only [applyReplacement, hSall, hSany, Bool.false_or, Bool.not_true]
      rw [if_neg (show ¬(false = true) by simp)]
      refine (hasKey_removeReplacementNode _ _ _ _).mpr ⟨hk, ?_⟩
      intro hEq
      exact hself (hEq ▸ hr)

/-- Witness for C1, at a one-squash scenario with `replaces = [0001, 0002]`:
with both applied the squash is substituted and marked applied; with only
0001 applied the squash node is excluded while 0001 and 0002 remain. -/
theorem build_graph_replacement_witness :
    (⟨"app", "0001_squashed_0002"⟩ : MigrationKey) ∈
      (applyReplacement
        ⟨⟨[(⟨"app", "0001"⟩, .real { appLabel := "app", name := "0001" }),
           (⟨"app", "0002"⟩, .real { appLabel := "app", name := "0002" }),
           (⟨"app", "0001_squashed_0002"⟩,
            .real { appLabel := "app", name := "0001_squashed_0002",
                    replaces := [⟨"app", "0001"⟩, ⟨"app", "0002"⟩] })], []⟩,
          [⟨"app", "0001"⟩, ⟨"app", "0002"⟩]⟩
        (⟨"app", "0001_squashed_0002"⟩,
         { appLabel := "app", name := "0001_squashed_0002",
           replaces := [⟨"app", "0001"⟩, ⟨"app", "0002"⟩] })).applied ∧
    ¬ hasKey
      (applyReplacement
        ⟨⟨[(⟨"app", "0001"⟩, .real { appLabel := "app", name := "0001" }),
           (⟨"app", "0002"⟩, .real { appLabel := "app", name := "0002" }),
           (⟨"app", "0001_squashed_0002"⟩,
            .real { appLabel := "app", name := "0001_squashed_0002",
                    replaces := [⟨"app", "0001"⟩, ⟨"app", "0002"⟩] })], []⟩,
          [⟨"app", "0001"⟩]⟩
        (⟨"app", "0001_squashed_0002"⟩,
         { appLabel := "app", name := "0001_squashed_0002",
           replaces := [⟨"app", "0001"⟩, ⟨"app", "0002"⟩] })).graph
      ⟨"app", "0001_squashed_0002"⟩ :=
  ⟨((build_graph_replacement
      ⟨⟨[(⟨"app", "0001"⟩, .real { appLabel := "app", name := "0001" }),
         (⟨"app", "0002"⟩, .real { appLabel := "app", name := "0002" }),
         (⟨"app", "0001_squashed_0002"⟩,
          .real { appLabel := "app", name := "0001_squashed_0002",
                  replaces := [⟨"app", "0001"⟩, ⟨"app", "0002"⟩] })], []⟩,
        [⟨"app", "0001"⟩, ⟨"app", "0002"⟩]⟩
      ⟨"app", "0001_squashed_0002"⟩
      { appLabel := "app", name := "0001_squashed_0002",
        replaces := [⟨"app", "0001"⟩, ⟨"app", "0002"⟩] }
      (by decide) (by decide)).1 (by decide)).1,
   ((build_graph_replacement
      ⟨⟨[(⟨"app", "0001"⟩, .real { appLabel := "app", name := "0001" }),
         (⟨"app", "0002"⟩, .real { appLabel := "app", name := "0002" }),
         (⟨"app", "0001_squashed_0002"⟩,
          .real { appLabel := "app", name := "0001_squashed_0002",
                  replaces := [⟨"app", "0001"⟩, ⟨"app", "0002"⟩] })], []⟩,
        [⟨"app", "0001"⟩]⟩
      ⟨"app", "0001_squashed_0002"⟩
      { appLabel := "app", name := "0001_squashed_0002",
        replaces := [⟨"app", "0001"⟩, ⟨"app", "0002"⟩] }
      (by decide) (by decide)).2.2 ⟨⟨"app", "0001"⟩, by decide, by decide⟩
      ⟨⟨"app", "0002"⟩, by decide, by decide⟩).2.1⟩

/-- C8: when consistency validation hits a dangling node `(origin, node)`,
the loader re-raises the richer error — naming the origin migration, the
missing key and every squash candidate that replaces the missing key —
exactly when at least one such candidate exists and none of them survives
in the graph; in every other situation the original `NodeNotFoundError`
propagates unchanged.  The first conjunct characterises the candidate list
as all squash keys whose `replaces` contain the missing node. -/
theorem build_graph_node_not_found (repl : List (MigrationKey × Migration))
    (g : MigrationGraph) (origin node : MigrationKey)
    (h : firstDummy g.nodes = some (origin, node)) :
    (∀ c, c ∈ (repl.filter (fun kv => node ∈ kv.2.replaces)).map (·.1) ↔
      ∃ kv ∈ repl, kv.1 = c ∧ node ∈ kv.2.replaces) ∧
    ((repl.filter (fun kv => node ∈ kv.2.replaces)).map (·.1) ≠ [] →
      (∀ c ∈ (repl.filter (fun kv => node ∈ kv.2.replaces)).map (·.1),
        ¬ hasKey g c) →
      validatePhase repl g =
        .error (.nodeNotFoundReplaced origin node
          ((repl.filter (fun kv => node ∈ kv.2.replaces)).map (·.1)))) ∧
    (((repl.filter (fun kv => node ∈ kv.2.replaces)).map (·.1) = [] ∨
      ∃ c ∈ (repl.filter (fun kv => node ∈ kv.2.replaces)).map (·.1),
        hasKey g c) →
      validatePhase repl g = .error (.nodeNotFound origin node)) := by
  refine ⟨?_, ?_, ?_⟩
  · intro c
    simp only [List.mem_map, List.mem_filter, decide_eq_true_eq]
    constructor
    · rintro ⟨kv, ⟨hkv, hnode⟩, rfl⟩
      exact ⟨kv, hkv, rfl, hnode⟩
    · rintro ⟨kv, hkv, rfl, hnode⟩
      exact ⟨kv, ⟨hkv, hnode⟩, rfl⟩
  · intro hne hnone
    have hany : ((repl.filter (fun kv => node ∈ kv.2.replaces)).map (·.1)).any
        (fun c => decide (hasKey g c)) = false := by
      simp only [List.any_eq_false, decide_eq_true_eq]
      exact hnone
    simp only [validatePhase, h]
    rw [if_pos hne, if_neg]
    simp [hany]
  · rintro (hempty | ⟨c, hc, hhas⟩)
    · simp only [validatePhase, h]
      rw [if_neg]
      simp [hempty]
    · have hne : (repl.filter (fun kv => node ∈ kv.2.replaces)).map (·.1) ≠ [] :=
        List.ne_nil_of_mem hc
      have hany : ((repl.filter (fun kv => node ∈ kv.2.replaces)).map (·.1)).any
          (fun c => decide (hasKey g c)) = true := by
        simp only [List.any_eq_true, decide_eq_true_eq]
        exact ⟨c, hc, hhas⟩
      simp only [validatePhase, h]
      rw [if_pos hne, if_pos]
      simp [hany]

/-- Witness for C8 at a concrete state: a graph whose only node is a dummy
for `(app, 0001)` referenced by `(app, 0002)`, with a squash replacing
`(app, 0001)` that is itself absent from the graph, yields the enriched
error naming the squash candidate. -/
theorem build_graph_node_not_found_witness :
    validatePhase
        [(⟨"app", "0001_squashed_0002"⟩,
          { appLabel := "app", name := "0001_squashed_0002",
            replaces := [⟨"app", "0001"⟩, ⟨"app", "0002"⟩] })]
        ⟨[(⟨"app", "0001"⟩, .dummy ⟨"app", "0002"⟩)], []⟩ =
      .error (.nodeNotFoundReplaced ⟨"app", "0002"⟩ ⟨"app", "0001"⟩
        [⟨"app", "0001_squashed_0002"⟩]) :=
  (build_graph_node_not_found
    [(⟨"app", "0001_squashed_0002"⟩,
      { appLabel := "app", name := "0001_squashed_0002",
        replaces := [⟨"app", "0001"⟩, ⟨"app", "0002"⟩] })]
    ⟨[(⟨"app", "0001"⟩, .dummy ⟨"app", "0002"⟩)], []⟩
    ⟨"app", "0002"⟩ ⟨"app", "0001"⟩ (by decide)).2.1
    (by decide) (by decide)

/-- C4: sentinel dependency resolution in `check_key`, for a key whose name
is `__first__` or `__latest__` and which is not itself a graph node: a
reference to the current app is dropped, a reference to an unmigrated app
is dropped, and for a migrated target app the sentinel resolves to the
first root (resp. leaf) of that app's subgraph, failing with the
unresolvable-dependency error when the app has no migration nodes and
no-migrations are not ignored.  The final conjunct records that the whole
build performs the cycle check only after `buildGraphPre` — which contains
dependency resolution — so resolution happens before cycle validation. -/
theorem check_key_sentinels (ctx : LoaderCtx) (g : MigrationGraph)
    (key : MigrationKey) (currentApp : String)
    (hs : key.name = "__first__" ∨ key.name = "__latest__")
    (hg : ¬ hasKey g key) :
    (key.app = currentApp → checkKey ctx g key currentApp = .ok none) ∧
    (key.app ≠ currentApp → key.app ∈ ctx.unmigratedApps →
      checkKey ctx g key currentApp = .ok none) ∧
    (key.app ≠ currentApp → key.app ∉ ctx.unmigratedApps →
      key.app ∈ ctx.migratedApps →
      (∀ r rs, key.name = "__first__" → rootNodesApp g key.app = r :: rs →
        checkKey ctx g key currentApp = .ok (some r)) ∧
      (∀ r rs, key.name = "__latest__" → leafNodesApp g key.app = r :: rs →
        checkKey ctx g key currentApp = .ok (some r)) ∧
      (key.name = "__first__" → rootNodesApp g key.app = [] →
        ctx.ignoreNoMigrations = false →
        checkKey ctx g key currentApp = .error (.noMigrations key.app)) ∧
      (key.name = "__latest__" → leafNodesApp g key.app = [] →
        ctx.ignoreNoMigrations = false →
        checkKey ctx g key currentApp = .error (.noMigrations key.app))) ∧
    ((∀ x ∈ g.nodes, x.1.app ≠ key.app) →
      rootNodesApp g key.app = [] ∧ leafNodesApp g key.app = []) ∧
    buildGraph ctx = (buildGraphPre ctx).bind
      (fun bl => if hasCycle bl.graph then .error .circular else .ok bl) := by
  have hcond : ¬((key.name ≠ "__first__" ∧ key.name ≠ "__latest__") ∨ hasKey g key) := by
    rcases hs with h | h <;> simp [h, hg]
  refine ⟨?_, ?_, ?_, ?_, rfl⟩
  · intro hcur
    unfold checkKey
    rw [if_neg hcond, if_pos hcur]
  · intro hcur hunm
    unfold checkKey
    rw [if_neg hcond, if_neg hcur, if_pos hunm]
  · intro hcur hunm hmig
    refine ⟨?_, ?_, ?_, ?_⟩
    · intro r rs hfirst hroot
      unfold checkKey
      rw [if_neg hcond, if_neg hcur, if_neg hunm, if_pos hmig,
        if_pos hfirst, hroot]
      rfl
    · intro r rs hlatest hleaf
      have hnf : key.name ≠ "__first__" := by simp [hlatest]
      unfold checkKey
      rw [if_neg hcond, if_neg hcur, if_neg hunm, if_pos hmig,
        if_neg hnf, hleaf]
      rfl
    · intro hfirst hroot hign
      unfold checkKey
      rw [if_neg hcond, if_neg hcur, if_neg hunm, if_pos hmig,
        if_pos hfirst, hroot]
      simp [hign]
    · intro hlatest hleaf hign
      have hnf : key.name ≠ "__first__" := by simp [hlatest]
      unfold checkKey
      rw [if_neg hcond, if_neg hcur, if_neg hunm, if_pos hmig,
        if_neg hnf, hleaf]
      simp [hign]
  · intro hnone
    constructor
    · unfold rootNodesApp sortKeys
      have hnil : ((g.nodes.map (·.1)).filter
          (fun k => k.app = key.app ∧ ∀ p ∈ parentsOf g k, p.app ≠ key.app)) = [] := by
        rw [List.filter_eq_nil_iff]
        intro k hk
        obtain ⟨x, hx, rfl⟩ := List.mem_map.mp hk
        simp only [decide_eq_true_eq]
        rintro ⟨happ, -⟩
        exact hnone x hx happ
      rw [hnil]
      rfl
    · unfold leafNodesApp sortKeys
      have hnil : ((g.nodes.map (·.1)).filter
          (fun k => k.app = key.app ∧ ∀ c ∈ childrenOf g k, c.app ≠ key.app)) = [] := by
        rw [List.filter_eq_nil_iff]
        intro k hk
        obtain ⟨x, hx, rfl⟩ := List.mem_map.mp hk
        simp only [decide_eq_true_eq]
        rintro ⟨happ, -⟩
        exact hnone x hx happ
      rw [hnil]
      rfl

/-- Witness for C4 at a concrete state: a `__first__` dependency on app
"auth" with root `(auth, 0001)` resolves to that root, and the same
dependency errors when "auth" has no migration nodes. -/
theorem check_key_sentinels_witness :
    checkKey
        ⟨[], [], ["auth"], false, true, []⟩
        ⟨[(⟨"auth", "0001"⟩, .real { appLabel := "auth", name := "0001" })], []⟩
        ⟨"auth", "__first__"⟩ "app" = .ok (some ⟨"auth", "0001"⟩) ∧
    checkKey ⟨[], [], ["auth"], false, true, []⟩ ⟨[], []⟩
        ⟨"auth", "__first__"⟩ "app" = .error (.noMigrations "auth") :=
  ⟨((check_key_sentinels ⟨[], [], ["auth"], false, true, []⟩
      ⟨[(⟨"auth", "0001"⟩, .real { appLabel := "auth", name := "0001" })], []⟩
      ⟨"auth", "__first__"⟩ "app" (Or.inl rfl) (by decide)).2.2.1
      (by decide) (by decide) (by decide)).1 ⟨"auth", "0001"⟩ [] rfl (by decide),
   ((check_key_sentinels ⟨[], [], ["auth"], false, true, []⟩ ⟨[], []⟩
      ⟨"auth", "__first__"⟩ "app" (Or.inl rfl) (by decide)).2.2.1
      (by decide) (by decide) (by decide)).2.2.1 rfl (by decide) rfl⟩

/-- A parent is not a violation exactly when it is applied or is a squash
whose whole `replaces` list is applied. -/
theorem not_violatingParent_iff (repl : List (MigrationKey × Migration))
    (applied : List MigrationKey) (p : MigrationKey) :
    ¬ violatingParent repl applied p ↔
      p ∈ applied ∨ ∃ kv ∈ repl, kv.1 = p ∧ ∀ r ∈ kv.2.replaces, r ∈ applied := by
  unfold violatingParent
  constructor
  · intro h
    by_cases hp : p ∈ applied
    · exact Or.inl hp
    · right
      by_contra hex
      exact h ⟨hp, hex⟩
  · rintro (hp | hex) ⟨hnp, hne⟩
    · exact hnp hp
    · exact hne hex

/-- The history-check loop accepts exactly when no remaining applied key
that the graph knows has a violating parent. -/
theorem checkConsistentHistoryAux_ok_iff (g : MigrationGraph)
    (repl : List (MigrationKey × Migration))
    (applied todo : List MigrationKey) :
    checkConsistentHistoryAux g repl applied todo = .ok () ↔
      ∀ m ∈ todo, hasKey g m → ∀ p ∈ parentsOf g m,
        ¬ violatingParent repl applied p := by
  induction todo with
  | nil => simp [checkConsistentHistoryAux]
  | cons m rest ih =>
    by_cases hk : hasKey g m
    · rcases hf : (parentsOf g m).find?
          (fun p => decide (violatingParent repl applied p)) with _ | q
      · have hnone : ∀ p ∈ parentsOf g m, ¬ violatingParent repl applied p := by
          intro p hp
          have := List.find?_eq_none.mp hf p hp
          simpa using this
        rw [checkConsistentHistoryAux, if_pos hk, hf, ih]
        constructor
        · intro h m' hm'
          rcases List.mem_cons.mp hm' with rfl | hm''
          · intro _
            exact hnone
          · exact h m' hm''
        · intro h m' hm'
          exact h m' (List.mem_cons_of_mem _ hm')
      · rw [checkConsistentHistoryAux, if_pos hk, hf]
        constructor
        · intro h
          exact absurd h (by simp)
        · intro h
          have hq : violatingParent repl applied q := by
            simpa using List.find?_some hf
          exact absurd hq
            (h m (List.mem_cons_self m rest) hk q (List.mem_of_find?_eq_some hf))
    · rw [checkConsistentHistoryAux, if_neg hk, ih]
      constructor
      · intro h m' hm'
        rcases List.mem_cons.mp hm' with rfl | hm''
        · intro hk'
          exact absurd hk' hk
        · exact h m' hm''
      · intro h m' hm'
        exact h m' (List.mem_cons_of_mem _ hm')

/-- A history-check error names a remaining applied key known to the graph
together with one of its violating parents. -/
theorem checkConsistentHistoryAux_error (g : MigrationGraph)
    (repl : List (MigrationKey × Migration))
    (applied todo : List MigrationKey) (m p : MigrationKey)
    (h : checkConsistentHistoryAux g repl applied todo = .error (m, p)) :
    m ∈ todo ∧ hasKey g m ∧ p ∈ parentsOf g m ∧
      violatingParent repl applied p := by
  induction todo with
  | nil => simp [checkConsistentHistoryAux] at h
  | cons m' rest ih =>
    by_cases hk : hasKey g m'
    · rcases hf : (parentsOf g m').find?
          (fun p => decide (violatingParent repl applied p)) with _ | q
      · rw [checkConsistentHistoryAux, if_pos hk, hf] at h
        obtain ⟨h1, h2, h3, h4⟩ := ih h
        exact ⟨List.mem_cons_of_mem _ h1, h2, h3, h4⟩
      · rw [checkConsistentHistoryAux, if_pos hk, hf] at h
        have hq : violatingParent repl applied q := by
          simpa using List.find?_some hf
        injection h with h
        injection h with hm hp
        subst hm
        subst hp
        exact ⟨List.mem_cons_self _ _, hk, List.mem_of_find?_eq_some hf, hq⟩
    · rw [checkConsistentHistoryAux, if_neg hk] at h
      obtain ⟨h1, h2, h3, h4⟩ := ih h
      exact ⟨List.mem_cons_of_mem _ h1, h2, h3, h4⟩

/-- C2: `check_consistent_history` accepts exactly when every applied key
that exists in the graph has all its graph parents applied or excused as a
squash whose entire `replaces` list is applied (applied keys absent from
the graph are skipped); and a raised `InconsistentMigrationHistory` names
an applied graph-known migration together with such a violating parent. -/
theorem check_consistent_history_iff (g : MigrationGraph)
    (repl : List (MigrationKey × Migration)) (applied : List MigrationKey) :
    (checkConsistentHistory g repl applied = .ok () ↔
      ∀ m ∈ applied, hasKey g m → ∀ p ∈ parentsOf g m,
        p ∈ applied ∨ ∃ kv ∈ repl, kv.1 = p ∧ ∀ r ∈ kv.2.replaces, r ∈ applied) ∧
    (∀ m p, checkConsistentHistory g repl applied = .error (m, p) →
      m ∈ applied ∧ hasKey g m ∧ p ∈ parentsOf g m ∧ p ∉ applied ∧
      ¬ ∃ kv ∈ repl, kv.1 = p ∧ ∀ r ∈ kv.2.replaces, r ∈ applied) := by
  constructor
  · rw [checkConsistentHistory, checkConsistentHistoryAux_ok_iff]
    constructor
    · intro h m hm hk p hp
      exact (not_violatingParent_iff repl applied p).mp (h m hm hk p hp)
    · intro h m hm hk p hp
      exact (not_violatingParent_iff repl applied p).mpr (h m hm hk p hp)
  · intro m p h
    obtain ⟨h1, h2, h3, h4⟩ :=
      checkConsistentHistoryAux_error g repl applied applied m p h
    exact ⟨h1, h2, h3, h4.1, h4.2⟩

/-- The two-migration graph of the spec's history-check example: 0002
depends on 0001. -/
def historyExampleGraph : MigrationGraph :=
  ⟨[(⟨"app", "0001"⟩, .real { appLabel := "app", name := "0001" }),
    (⟨"app", "0002"⟩,
     .real { appLabel := "app", name := "0002", dependencies := [⟨"app", "0001"⟩] })],
   [(⟨"app", "0002"⟩, ⟨"app", "0001"⟩)]⟩

/-- Witness for C2, at the spec's example: `(app, 0002)` applied but its
graph parent `(app, 0001)` unapplied (no squashes) is reported naming
both keys. -/
theorem check_consistent_history_iff_witness :
    (⟨"app", "0002"⟩ : MigrationKey) ∈ [(⟨"app", "0002"⟩ : MigrationKey)] ∧
    hasKey historyExampleGraph ⟨"app", "0002"⟩ ∧
    (⟨"app", "0001"⟩ : MigrationKey) ∈
      parentsOf historyExampleGraph ⟨"app", "0002"⟩ ∧
    (⟨"app", "0001"⟩ : MigrationKey) ∉ [(⟨"app", "0002"⟩ : MigrationKey)] ∧
    ¬ ∃ kv ∈ ([] : List (MigrationKey × Migration)), kv.1 = ⟨"app", "0001"⟩ ∧
      ∀ r ∈ kv.2.replaces, r ∈ [(⟨"app", "0002"⟩ : MigrationKey)] :=
  (check_consistent_history_iff historyExampleGraph [] [⟨"app", "0002"⟩]).2
    ⟨"app", "0002"⟩ ⟨"app", "0001"⟩ (by decide)

/-- Key membership after a Python dict assignment. -/
theorem mem_keys_dictInsert (d : List (MigrationKey × Migration))
    (k : MigrationKey) (v : Migration) (k' : MigrationKey) :
    k' ∈ (dictInsert d k v).map (·.1) ↔ k' = k ∨ k' ∈ d.map (·.1) := by
  unfold dictInsert
  split
  · rename_i hany
    have hkeys : (d.map (fun p => if p.1 = k then (k, v) else p)).map (·.1)
        = d.map (·.1) := by
      rw [List.map_map]
      apply List.map_congr_left
      intro p _
      by_cases hp : p.1 = k
      · simp [hp]
      · simp [hp]
    rw [hkeys]
    have hk : k ∈ d.map (·.1) := by
      rw [List.any_eq_true] at hany
      obtain ⟨p, hp, hpk⟩ := hany
      exact List.mem_map.mpr ⟨p, hp, by simpa using hpk⟩
    constructor
    · exact Or.inr
    · rintro (rfl | h)
      · exact hk
      · exact h
  · simp only [List.map_append, List.map_cons, List.map_nil, List.mem_append,
      List.mem_singleton]
    constructor
    · rintro (h | h)
      · exact Or.inr h
      · exact Or.inl h
    · rintro (h | h)
      · exact Or.inr h
      · exact Or.inl h

/-- The per-app loop succeeds exactly when every module defines a
`Migration` class, whatever dict it starts from. -/
theorem loadDiskApp_ok_iff (label : String) (srcs : List MigrationSource) :
    ∀ d, (∃ d', loadDiskApp label d srcs = .ok d') ↔
      ∀ s ∈ srcs, s.hasMigrationClass = true := by
  induction srcs with
  | nil =>
    intro d
    simp [loadDiskApp]
  | cons s rest ih =>
    intro d
    by_cases hc : s.hasMigrationClass = true
    · rw [loadDiskApp, if_pos hc]
      rw [ih]
      constructor
      · intro h s' hs'
        rcases List.mem_cons.mp hs' with rfl | hs''
        · exact hc
        · exact h s' hs''
      · intro h s' hs'
        exact h s' (List.mem_cons_of_mem _ hs')
    · rw [loadDiskApp, if_neg hc]
      constructor
      · rintro ⟨d', hd'⟩
        exact absurd hd' (by simp)
      · intro h
        exact absurd (h s (List.mem_cons_self _ _)) hc

/-- The per-app loop's resulting keys: the starting keys plus one key per
processed module. -/
theorem loadDiskApp_keys (label : String) (srcs : List MigrationSource) :
    ∀ d d', loadDiskApp label d srcs = .ok d' →
      ∀ k, k ∈ d'.map (·.1) ↔
        k ∈ d.map (·.1) ∨ ∃ s ∈ srcs, k = ⟨label, s.name⟩ := by
  induction srcs with
  | nil =>
    intro d d' h k
    rw [loadDiskApp] at h
    injection h with h
    subst h
    simp
  | cons s rest ih =>
    intro d d' h k
    by_cases hc : s.hasMigrationClass = true
    · rw [loadDiskApp, if_pos hc] at h
      rw [ih _ _ h k, mem_keys_dictInsert]
      constructor
      · rintro ((rfl | hd) | ⟨s', hs', rfl⟩)
        · exact Or.inr ⟨s, List.mem_cons_self _ _, rfl⟩
        · exact Or.inl hd
        · exact Or.inr ⟨s', List.mem_cons_of_mem _ hs', rfl⟩
      · rintro (hd | ⟨s', hs', rfl⟩)
        · exact Or.inl (Or.inr hd)
        · rcases List.mem_cons.mp hs' with rfl | hs''
          · exact Or.inl (Or.inl rfl)
          · exact Or.inr ⟨s', hs'', rfl⟩
    · rw [loadDiskApp, if_neg hc] at h
      exact absurd h (by simp)

/-- The outer loop succeeds exactly when every app's discovered modules all
define a `Migration` class, whatever state it starts from. -/
theorem loadDiskGo_ok_iff (apps : List AppConfigSrc) :
    ∀ r, (∃ r', loadDiskGo r apps = .ok r') ↔
      ∀ app ∈ apps, ∀ srcs, app.sources = some srcs →
        ∀ s ∈ srcs, s.hasMigrationClass = true := by
  induction apps with
  | nil =>
    intro r
    simp [loadDiskGo]
  | cons app rest ih =>
    intro r
    rcases hsrc : app.sources with _ | srcs
    · simp only [loadDiskGo, hsrc]
      rw [ih]
      constructor
      · intro h app' happ' srcs' hsrcs'
        rcases List.mem_cons.mp happ' with rfl | happ''
        · rw [hsrc] at hsrcs'
          exact absurd hsrcs' (by simp)
        · exact h app' happ'' srcs' hsrcs'
      · intro h app' happ'
        exact h app' (List.mem_cons_of_mem _ happ')
    · simp only [loadDiskGo, hsrc]
      rcases happ : loadDiskApp app.label r.diskMigrations srcs with e | d
      · simp only [happ]
        constructor
        · rintro ⟨r', hr'⟩
          exact absurd hr' (by simp)
        · intro h
          have hall : ∀ s ∈ srcs, s.hasMigrationClass = true :=
            h app (List.mem_cons_self _ _) srcs hsrc
          obtain ⟨d', hd'⟩ := (loadDiskApp_ok_iff app.label srcs
            r.diskMigrations).mpr hall
          rw [happ] at hd'
          exact absurd hd' (by simp)
      · simp only [happ]
        rw [ih]
        constructor
        · intro h app' happ' srcs' hsrcs'
          rcases List.mem_cons.mp happ' with rfl | happ''
          · rw [hsrc] at hsrcs'
            injection hsrcs' with heq
            subst heq
            exact (loadDiskApp_ok_iff _ _ r.diskMigrations).mp ⟨d, happ⟩
          · exact h app' happ'' srcs' hsrcs'
        · intro h app' happ'
          exact h app' (List.mem_cons_of_mem _ happ')

/-- The outer loop's resulting disk-migration keys: the starting keys plus
one key per discovered module of every migrated app. -/
theorem loadDiskGo_keys (apps : List AppConfigSrc) :
    ∀ r r', loadDiskGo r apps = .ok r' →
      ∀ k, k ∈ r'.diskMigrations.map (·.1) ↔
        k ∈ r.diskMigrations.map (·.1) ∨
        ∃ app ∈ apps, ∃ srcs, app.sources = some srcs ∧
          ∃ s ∈ srcs, k = ⟨app.label, s.name⟩ := by
  induction apps with
  | nil =>
    intro r r' h k
    rw [loadDiskGo] at h
    injection h with h
    subst h
    simp
  | cons app rest ih =>
    intro r r' h k
    rcases hsrc : app.sources with _ | srcs
    · simp only [loadDiskGo, hsrc] at h
      rw [ih _ _ h k]
      constructor
      · rintro (hd | ⟨app', happ', rest'⟩)
        · exact Or.inl hd
        · exact Or.inr ⟨app', List.mem_cons_of_mem _ happ', rest'⟩
      · rintro (hd | ⟨app', happ', srcs', hsrcs', rest'⟩)
        · exact Or.inl hd
        · rcases List.mem_cons.mp happ' with rfl | happ''
          · rw [hsrc] at hsrcs'
            exact absurd hsrcs' (by simp)
          · exact Or.inr ⟨app', happ'', srcs', hsrcs', rest'⟩
    · simp only [loadDiskGo, hsrc] at h
      rcases happ : loadDiskApp app.label r.diskMigrations srcs with e | d
      · rw [happ] at h
        exact absurd h (by simp)
      · rw [happ] at h
        rw [ih _ _ h k]
        have hkeys := loadDiskApp_keys app.label srcs r.diskMigrations d happ k
        constructor
        · rintro (hd | ⟨app', happ', rest'⟩)
          · rcases hkeys.mp hd with hd' | ⟨s, hs, rfl⟩
            · exact Or.inl hd'
            · exact Or.inr ⟨app, List.mem_cons_self _ _, srcs, hsrc, s, hs, rfl⟩
          · exact Or.inr ⟨app', List.mem_cons_of_mem _ happ', rest'⟩
        · rintro (hd | ⟨app', happ', srcs', hsrcs', s, hs, rfl⟩)
          · exact Or.inl (hkeys.mpr (Or.inl hd))
          · rcases List.mem_cons.mp happ' with rfl | happ''
            · rw [hsrc] at hsrcs'
              injection hsrcs' with hsrcs'
              subst hsrcs'
              exact Or.inl (hkeys.mpr (Or.inr ⟨s, hs, rfl⟩))
            · exact Or.inr ⟨app', happ'', srcs', hsrcs', s, hs, rfl⟩

/-- C3 counterexample: two independently discovered sources producing the
same `MigrationKey` `(shop, 0001)` do NOT make `load_disk` fail — it
returns successfully with the colliding units silently merged (the later
assignment wins, here visible through `atomic := false`), refuting the
claim that such a collision is a hard `LoadError`. -/
theorem load_disk_collision_merges :
    loadDisk
      [⟨"shop", some [⟨"0001", true, { appLabel := "shop", name := "0001" }⟩]⟩,
       ⟨"shop", some [⟨"0001", true,
         { appLabel := "shop", name := "0001", atomic := false }⟩]⟩] =
    .ok ⟨[], ["shop", "shop"],
      [(⟨"shop", "0001"⟩,
        { appLabel := "shop", name := "0001", atomic := false })]⟩ := by
  decide

/-- C3 (amended): `load_disk` contains no duplicate-identity check — its
only per-unit failure is the missing-`Migration`-class error, so loading
succeeds exactly when every discovered module defines a `Migration`
class (a duplicate key never causes an error, the later unit silently
overwriting the earlier); on success the loaded keys are exactly the
discovered `(app_label, name)` pairs. -/
theorem load_disk_no_duplicate_check (apps : List AppConfigSrc) :
    ((∃ r, loadDisk apps = .ok r) ↔
      ∀ app ∈ apps, ∀ srcs, app.sources = some srcs →
        ∀ s ∈ srcs, s.hasMigrationClass = true) ∧
    (∀ r, loadDisk apps = .ok r → ∀ k,
      k ∈ r.diskMigrations.map (·.1) ↔
        ∃ app ∈ apps, ∃ srcs, app.sources = some srcs ∧
          ∃ s ∈ srcs, k = ⟨app.label, s.name⟩) := by
  constructor
  · exact loadDiskGo_ok_iff apps ⟨[], [], []⟩
  · intro r h k
    rw [loadDiskGo_keys apps ⟨[], [], []⟩ r h k]
    simp

/-- Witness for C3's amended statement at a concrete input: loading two
colliding sources succeeds, and the loaded keys are exactly the discovered
pair. -/
theorem load_disk_no_duplicate_check_witness :
    (∃ r, loadDisk
      [⟨"shop", some [⟨"0001", true, { appLabel := "shop", name := "0001" }⟩]⟩,
       ⟨"shop", some [⟨"0001", true,
         { appLabel := "shop", name := "0001", atomic := false }⟩]⟩] = .ok r) :=
  (load_disk_no_duplicate_check
    [⟨"shop", some [⟨"0001", true, { appLabel := "shop", name := "0001" }⟩]⟩,
     ⟨"shop", some [⟨"0001", true,
       { appLabel := "shop", name := "0001", atomic := false }⟩]⟩]).1.mpr
    (by decide)

/-- The leaf list of a graph with distinct node keys has no duplicates. -/
theorem leafNodes_nodup (g : MigrationGraph) (h : (g.nodes.map (·.1)).Nodup) :
    (leafNodes g).Nodup := by
  unfold leafNodes sortKeys
  exact (List.perm_insertionSort keyLE _).symm.nodup (h.filter _)

/-- An app label occurs among a key list's labels exactly when filtering
by it is non-empty. -/
theorem mem_app_iff_filter_pos (P : List MigrationKey) (a : String) :
    a ∈ P.map (·.app) ↔ 0 < (P.filter (fun k => k.app = a)).length := by
  rw [List.length_pos]
  constructor
  · intro h
    obtain ⟨k, hk, rfl⟩ := List.mem_map.mp h
    intro hnil
    rw [List.filter_eq_nil_iff] at hnil
    exact hnil k hk (by simp)
  · intro h
    by_contra hmem
    apply h
    rw [List.filter_eq_nil_iff]
    intro k hk
    simp only [decide_eq_true_eq]
    intro heq
    exact hmem (List.mem_map.mpr ⟨k, hk, heq⟩)

/-- `seen_apps.setdefault(...).add(...)` keeps the key set, plus the new
app label. -/
theorem seenAdd_any (seen : List (String × List String)) (a0 n0 a : String) :
    (seenAdd seen a0 n0).any (fun p => p.1 = a) = true ↔
      (seen.any (fun p => p.1 = a) = true ∨ a = a0) := by
  unfold seenAdd
  split
  · rename_i hin
    rw [List.any_map]
    have hcomp : ((fun p : String × List String => decide (p.1 = a)) ∘ fun p =>
        if p.1 = a0 then (p.1, if n0 ∈ p.2 then p.2 else p.2 ++ [n0]) else p) =
        (fun p : String × List String => decide (p.1 = a)) := by
      funext p
      by_cases hp : p.1 = a0 <;> simp [hp]
    rw [hcomp]
    constructor
    · exact Or.inl
    · rintro (h | rfl)
      · exact h
      · exact hin
  · rename_i hin
    rw [List.any_append]
    simp only [List.any_cons, List.any_nil, Bool.or_false, Bool.or_eq_true,
      decide_eq_true_eq]
    constructor
    · rintro (h | h)
      · exact Or.inl h
      · exact Or.inr h.symm
    · rintro (h | h)
      · exact Or.inl h
      · exact Or.inr h.symm

/-- Adding one name under `a0` leaves lookups of other app labels alone. -/
theorem seenAdd_find?_ne (seen : List (String × List String)) (a0 n0 a : String)
    (hne : a ≠ a0) :
    (seenAdd seen a0 n0).find? (fun p => p.1 = a) =
      seen.find? (fun p => p.1 = a) := by
  unfold seenAdd
  split
  · rw [List.find?_map]
    have hcomp : ((fun p : String × List String => decide (p.1 = a)) ∘ fun p =>
        if p.1 = a0 then (p.1, if n0 ∈ p.2 then p.2 else p.2 ++ [n0]) else p) =
        (fun p : String × List String => decide (p.1 = a)) := by
      funext p
      by_cases hp : p.1 = a0 <;> simp [hp]
    rw [hcomp]
    rcases hf : seen.find? (fun p => decide (p.1 = a)) with _ | e <;> rw [hf]
    · rfl
    · have he : e.1 = a := by simpa using List.find?_some hf
      simp only [Option.map_some']
      rw [if_neg]
      rw [he]
      exact hne
  · rw [List.find?_append]
    rcases hf : seen.find? (fun p => decide (p.1 = a)) with _ | e <;> rw [hf]
    · rw [Option.none_or, List.find?_eq_none]
      intro p hp
      simp only [List.mem_singleton] at hp
      subst hp
      simp [Ne.symm hne]
    · rfl

/-- Adding a name under an already-seen app label updates that entry by
appending the name (when new). -/
theorem seenAdd_find?_present (seen : List (String × List String)) (a0 n0 : String)
    (hin : seen.any (fun p => p.1 = a0) = true)
    (e : String × List String)
    (he : seen.find? (fun p => p.1 = a0) = some e) :
    (seenAdd seen a0 n0).find? (fun p => p.1 = a0) =
      some (e.1, if n0 ∈ e.2 then e.2 else e.2 ++ [n0]) := by
  unfold seenAdd
  rw [if_pos hin, List.find?_map]
  have hcomp : ((fun p : String × List String => decide (p.1 = a0)) ∘ fun p =>
      if p.1 = a0 then (p.1, if n0 ∈ p.2 then p.2 else p.2 ++ [n0]) else p) =
      (fun p : String × List String => decide (p.1 = a0)) := by
    funext p
    by_cases hp : p.1 = a0 <;> simp [hp]
  rw [hcomp, he]
  simp only [Option.map_some']
  have he1 : e.1 = a0 := by simpa using List.find?_some he
  rw [if_pos he1]

/-- Adding a name under an unseen app label creates a fresh entry. -/
theorem seenAdd_find?_absent (seen : List (String × List String)) (a0 n0 : String)
    (hnin : ¬ seen.any (fun p => p.1 = a0) = true) :
    (seenAdd seen a0 n0).find? (fun p => p.1 = a0) = some (a0, [n0]) := by
  unfold seenAdd
  rw [if_neg hnin, List.find?_append]
  have hf : seen.find? (fun p => decide (p.1 = a0)) = none := by
    rw [List.find?_eq_none]
    intro p hp
    simp only [decide_eq_true_eq]
    intro hpe
    exact hnin (List.any_eq_true.mpr ⟨p, hp, by simp [hpe]⟩)
  rw [hf, Option.none_or]
  rw [List.find?_cons_of_pos]
  simp

/-- Keys agreeing on both components are equal. -/
theorem migrationKey_eq (a b : MigrationKey) (h1 : a.app = b.app)
    (h2 : a.name = b.name) : a = b := by
  cases a
  cases b
  simp_all

/-- The conflict-detection loop invariant: starting from accumulators that
correctly describe the processed prefix `P` of the leaf list, the final
`seen_apps` maps every app label to that app's leaf names in order and the
final `conflicting_apps` holds exactly the labels with two or more
leaves. -/
theorem detectConflictsAux_spec (todo : List MigrationKey) :
    ∀ (P : List MigrationKey) (seen : List (String × List String))
      (conf : List String),
    (P ++ todo).Nodup →
    (∀ a, seen.any (fun p => p.1 = a) = true ↔ a ∈ P.map (·.app)) →
    (∀ a e, seen.find? (fun p => p.1 = a) = some e →
      e.2 = (P.filter (fun x => x.app = a)).map (·.name)) →
    (∀ a, a ∈ conf ↔ 2 ≤ (P.filter (fun x => x.app = a)).length) →
    (∀ a, (detectConflictsAux todo seen conf).1.any (fun p => p.1 = a) = true ↔
      a ∈ (P ++ todo).map (·.app)) ∧
    (∀ a e, (detectConflictsAux todo seen conf).1.find? (fun p => p.1 = a) = some e →
      e.2 = ((P ++ todo).filter (fun x => x.app = a)).map (·.name)) ∧
    (∀ a, a ∈ (detectConflictsAux todo seen conf).2 ↔
      2 ≤ ((P ++ todo).filter (fun x => x.app = a)).length) := by
  induction todo with
  | nil =>
    intro P seen conf hnd hany hfind hconf
    simp only [detectConflictsAux, List.append_nil]
    exact ⟨hany, hfind, hconf⟩
  | cons k rest ih =>
    intro P seen conf hnd hany hfind hconf
    have hkP : k ∉ P := by
      rcases List.nodup_append.mp hnd with ⟨-, -, hdisj⟩
      intro hk
      exact hdisj hk (List.mem_cons_self _ _)
    have hnameP : k.name ∉ (P.filter (fun x => x.app = k.app)).map (·.name) := by
      intro hmem
      obtain ⟨k', hk', hkname⟩ := List.mem_map.mp hmem
      rw [List.mem_filter] at hk'
      have happ : k'.app = k.app := by simpa using hk'.2
      have hkk : k' = k := migrationKey_eq k' k happ hkname
      exact hkP (hkk ▸ hk'.1)
    have hany' : ∀ a, (seenAdd seen k.app k.name).any (fun p => p.1 = a) = true ↔
        a ∈ (P ++ [k]).map (·.app) := by
      intro a
      rw [seenAdd_any]
      simp only [List.map_append, List.mem_append, List.map_cons, List.map_nil,
        List.mem_singleton]
      rw [hany a]
    have hfind' : ∀ a e,
        (seenAdd seen k.app k.name).find? (fun p => p.1 = a) = some e →
        e.2 = ((P ++ [k]).filter (fun x => x.app = a)).map (·.name) := by
      intro a e hse
      by_cases ha : a = k.app
      · subst ha
        by_cases hin : seen.any (fun p => p.1 = k.app) = true
        · obtain ⟨e0, he0⟩ : ∃ e0, seen.find? (fun p => p.1 = k.app) = some e0 := by
            rw [← Option.isSome_iff_exists, List.find?_isSome]
            rw [List.any_eq_true] at hin
            simpa using hin
          have hrec := hfind k.app e0 he0
          rw [seenAdd_find?_present seen k.app k.name hin e0 he0] at hse
          injection hse with hse
          have hnn : k.name ∉ e0.2 := by
            rw [hrec]
            exact hnameP
          rw [← hse]
          simp only [if_neg hnn]
          rw [hrec, List.filter_append, List.map_append]
          simp
        · rw [seenAdd_find?_absent seen k.app k.name hin] at hse
          injection hse with hse
          have hP0 : (P.filter (fun x => x.app = k.app)) = [] := by
            have hnp : ¬ 0 < (P.filter (fun x => x.app = k.app)).length := by
              rw [← mem_app_iff_filter_pos]
              intro hmem
              exact hin ((hany k.app).mpr hmem)
            have := Nat.eq_zero_of_not_pos hnp
            exact List.length_eq_zero.mp this
          rw [← hse, List.filter_append, hP0]
          simp
      · rw [seenAdd_find?_ne seen k.app k.name a ha] at hse
        have hrec := hfind a e hse
        have hk0 : (([k] : List MigrationKey).filter (fun x => x.app = a)) = [] := by
          have : k.app ≠ a := fun h => ha h.symm
          simp [this]
        rw [hrec, List.filter_append, hk0]
        simp
    have hconf' : ∀ a,
        a ∈ (if seen.any (fun p => p.1 = k.app) = true then
              (if k.app ∈ conf then conf else conf ++ [k.app]) else conf) ↔
          2 ≤ ((P ++ [k]).filter (fun x => x.app = a)).length := by
      intro a
      have hlen : ((P ++ [k]).filter (fun x => x.app = a)).length =
          (P.filter (fun x => x.app = a)).length +
            (if k.app = a then 1 else 0) := by
        rw [List.filter_append, List.length_append]
        by_cases h : k.app = a <;> simp [h]
      rw [hlen]
      by_cases ha : a = k.app
      · subst ha
        rw [if_pos rfl]
        by_cases hin : seen.any (fun p => p.1 = k.app) = true
        · rw [if_pos hin]
          have hp1 : 0 < (P.filter (fun x => x.app = k.app)).length :=
            (mem_app_iff_filter_pos P k.app).mp ((hany k.app).mp hin)
          have hmemconf : k.app ∈ (if k.app ∈ conf then conf else conf ++ [k.app]) := by
            split
            · assumption
            · simp
          constructor
          · intro _
            omega
          · intro _
            exact hmemconf
        · rw [if_neg hin]
          have hp0 : (P.filter (fun x => x.app = k.app)).length = 0 := by
            by_contra h0
            exact hin ((hany k.app).mpr
              ((mem_app_iff_filter_pos P k.app).mpr (Nat.pos_of_ne_zero h0)))
          rw [hconf k.app]
          omega
      · have hne : k.app ≠ a := fun h => ha h.symm
        rw [if_neg hne]
        have hmem : a ∈ (if seen.any (fun p => p.1 = k.app) = true then
            (if k.app ∈ conf then conf else conf ++ [k.app]) else conf) ↔
            a ∈ conf := by
          split
          · split
            · exact Iff.rfl
            · simp only [List.mem_append, List.mem_singleton]
              constructor
              · rintro (h | h)
                · exact h
                · exact absurd h ha
              · exact Or.inl
          · exact Iff.rfl
        rw [hmem, hconf a]
        omega
    have hnd' : ((P ++ [k]) ++ rest).Nodup := by simpa using hnd
    have hres := ih (P ++ [k]) (seenAdd seen k.app k.name) _ hnd' hany' hfind' hconf'
    simp only [detectConflictsAux]
    have hPP : ((P ++ [k]) ++ rest) = P ++ k :: rest := by simp
    rw [hPP] at hres
    exact hres

/-- C5: conflict detection returns exactly the app labels that have more
than one leaf node in the graph, each mapped to the sorted list of every
leaf migration name of that app; an app with at most one leaf does not
appear in the result. -/
theorem detect_conflicts_forks (g : MigrationGraph)
    (h : (g.nodes.map (·.1)).Nodup) (app : String) :
    ((∃ ns, (app, ns) ∈ detectConflicts g) ↔
      1 < ((leafNodes g).filter (fun k => k.app = app)).length) ∧
    (∀ ns, (app, ns) ∈ detectConflicts g →
      ns = sortStrings
        (((leafNodes g).filter (fun k => k.app = app)).map (·.name))) := by
  have hnd : (([] : List MigrationKey) ++ leafNodes g).Nodup := by
    simpa using leafNodes_nodup g h
  obtain ⟨hany, hfind, hconf⟩ := detectConflictsAux_spec (leafNodes g) [] [] []
    hnd (by simp) (by simp) (by simp)
  simp only [List.nil_append] at hany hfind hconf
  have hdc : detectConflicts g = (detectConflictsAux (leafNodes g) [] []).2.map
      (fun a => (a, sortStrings ((((detectConflictsAux (leafNodes g) [] []).1.find?
        (fun p => p.1 = a)).map (·.2)).getD []))) := rfl
  constructor
  · constructor
    · rintro ⟨ns, hmem⟩
      rw [hdc] at hmem
      obtain ⟨a, ha, heq⟩ := List.mem_map.mp hmem
      have ha1 : a = app := congrArg Prod.fst heq
      subst ha1
      have := (hconf a).mp ha
      omega
    · intro hlen
      have hmem : app ∈ (detectConflictsAux (leafNodes g) [] []).2 :=
        (hconf app).mpr (by omega)
      refine ⟨sortStrings ((((detectConflictsAux (leafNodes g) [] []).1.find?
          (fun p => p.1 = app)).map (·.2)).getD []), ?_⟩
      rw [hdc]
      exact List.mem_map.mpr ⟨app, hmem, rfl⟩
  · intro ns hmem
    rw [hdc] at hmem
    obtain ⟨a, ha, heq⟩ := List.mem_map.mp hmem
    have ha1 : a = app := congrArg Prod.fst heq
    subst ha1
    have hns : ns = sortStrings
        ((((detectConflictsAux (leafNodes g) [] []).1.find?
          (fun p => p.1 = a)).map (·.2)).getD []) := (congrArg Prod.snd heq).symm
    have hcount : 2 ≤ ((leafNodes g).filter (fun k => k.app = a)).length :=
      (hconf a).mp ha
    have hmem2 : a ∈ (leafNodes g).map (·.app) :=
      (mem_app_iff_filter_pos _ _).mpr (by omega)
    obtain ⟨e, he⟩ : ∃ e, (detectConflictsAux (leafNodes g) [] []).1.find?
        (fun p => p.1 = a) = some e := by
      rw [← Option.isSome_iff_exists, List.find?_isSome]
      have := (hany a).mpr hmem2
      rw [List.any_eq_true] at this
      simpa using this
    rw [he] at hns
    simp only [Option.map_some', Option.getD_some] at hns
    rw [hfind a e he] at hns
    exact hns

/-- A graph whose app "a" has two leaves, 0001 and 0002. -/
def conflictExampleGraph : MigrationGraph :=
  ⟨[(⟨"a", "0002"⟩, .real { appLabel := "a", name := "0002" }),
    (⟨"a", "0001"⟩, .real { appLabel := "a", name := "0001" })], []⟩

/-- Witness for C5: an app with two leaf migrations is reported by
conflict detection. -/
theorem detect_conflicts_forks_witness :
    ∃ ns, ("a", ns) ∈ detectConflicts conflictExampleGraph :=
  (detect_conflicts_forks conflictExampleGraph (by decide) "a").1.mpr (by decide)

end Dj
